import Mathlib

/-!
# Verification of the Spaartje analytics dashboard aggregation engine

This file shallowly embeds the aggregation logic of the dashboard
(the onboarding funnel page, the users/PMF page and the overview page)
and proves or refutes the specification claims about it.

Conventions of the embedding:
* JS `Set<string>` of user ids becomes `Finset String`.
* Timestamps (`received_at`, an ISO instant) become `Int` milliseconds
  since the Unix epoch; lexicographic comparison of ISO strings is
  order-isomorphic to comparison of instants, and `s.split('T')[0]`
  (the calendar day) is modelled by the day index `t / msPerDay`.
* `Math.round x` is `floor (x + 1/2)` (JS rounds halves toward +inf);
  `x.toFixed 0` rounds halves away from zero.
* JS numbers that can only be `NaN` in a division by zero are modelled
  as `Option Int` with `none` playing the role of `NaN`.
-/

/-- JS `Math.round (num / den)` for a nonnegative denominator:
floor of `num / den + 1/2` (JS rounds `.5` up, also for negatives). -/
def jsRoundDiv (num : Int) (den : Nat) : Int :=
  (2 * num + den).fdiv (2 * den)

/-- JS `(num / den).toFixed 0` read back as an integer: rounds halves
away from zero. -/
def jsToFixedDiv (num : Int) (den : Nat) : Int :=
  if 0 ≤ num then ((2 * num.toNat + den) / (2 * den) : Nat)
  else -(((2 * (-num).toNat + den) / (2 * den) : Nat) : Int)

/-- JS `Math.round ((a / b) * 100)` on natural counts. -/
def roundPct (a b : Nat) : Nat :=
  (200 * a + b) / (2 * b)

/-- Milliseconds in a day. -/
def msPerDay : Int := 86400000

/-- Milliseconds in a week. -/
def msPerWeek : Int := 7 * msPerDay

/-- Calendar day index of an instant: models `received_at.split('T')[0]`
(two instants have the same ISO date prefix iff they have the same day
index). -/
def dayIdx (t : Int) : Int := t.fdiv msPerDay

/-- The `props` JSON payload of an analytics event, restricted to the
keys the dashboard reads. `none` models an absent key. -/
structure Props where
  savings_cents : Option Int := none
  is_new_user : Option Bool := none
  is_returning_device : Option Bool := none
  deriving DecidableEq

/-- A row of `analytics_events` as selected by the dashboard queries:
`received_at, firebase_uid, event_name, props`. -/
structure Event where
  received_at : Int
  firebase_uid : String
  event_name : String
  props : Props := {}
  deriving DecidableEq

/-- The set of distinct user ids appearing in a list of events
(`new Set(events.map(e => e.firebase_uid))`). -/
def uidsOf (events : List Event) : Finset String :=
  (events.map (·.firebase_uid)).toFinset

/-! ## Onboarding funnel (src: onboarding page, `funnel` / `biggestDropoff`) -/

/-- One entry of the `funnel` array: `value` is the event count, `users`
the unique-user count, `dropoff` the (possibly negative) user loss from
the previous step, `dropoffPct` the rounded percentage string where
`none` models the empty string. -/
structure FunnelStep where
  value : Nat
  users : Nat
  dropoff : Int
  dropoffPct : Option Int
  deriving DecidableEq

instance : Inhabited FunnelStep := ⟨⟨0, 0, 0, none⟩⟩

/-- Events matching one funnel step, by event name. -/
def stepEvents (events : List Event) (name : String) : List Event :=
  events.filter (fun e => e.event_name == name)

/-- `eventCounts.get(step.event).count`. -/
def stepCount (events : List Event) (name : String) : Nat :=
  (stepEvents events name).length

/-- `eventCounts.get(step.event).users`. -/
def stepUsers (events : List Event) (name : String) : Finset String :=
  ((stepEvents events name).map (·.firebase_uid)).toFinset

/-- The `funnel` array built by `ONBOARDING_STEPS.map((step, index) => ...)`:
for each step its event count, unique users, and drop-off data relative
to the previous step. -/
def funnel (events : List Event) (steps : List String) : List FunnelStep :=
  (List.range steps.length).map (fun i =>
    let users := (stepUsers events (steps.getD i "")).card
    let value := stepCount events (steps.getD i "")
    if i = 0 then
      { value := value, users := users, dropoff := 0, dropoffPct := none }
    else
      let prevUsers := (stepUsers events (steps.getD (i - 1) "")).card
      { value := value
        users := users
        dropoff := (prevUsers : Int) - users
        dropoffPct :=
          if 0 < prevUsers then
            some (jsToFixedDiv (100 * ((prevUsers : Int) - users)) prevUsers)
          else none })

@[simp] theorem funnel_length (events : List Event) (steps : List String) :
    (funnel events steps).length = steps.length := by
  simp [funnel]

/-- The percentage compared by the biggest-drop-off scan:
`(step.dropoff / funnel[i-1].users) * 100` as an exact rational
(the source compares unrounded floating-point values). -/
def dropPctQ (f : List FunnelStep) (i : Nat) : ℚ :=
  100 * (f.getD i default).dropoff / ((f.getD (i - 1) default).users : ℚ)

/-- The guard of the biggest-drop-off scan:
`i > 0 && step.dropoff && funnel[i-1].users > 0` (note that a zero
drop-off is falsy in JS and is skipped). -/
def bdQual (f : List FunnelStep) (i : Nat) : Prop :=
  0 < i ∧ (f.getD i default).dropoff ≠ 0 ∧ 0 < (f.getD (i - 1) default).users

instance (f : List FunnelStep) (i : Nat) : Decidable (bdQual f i) := by
  unfold bdQual; infer_instance

/-- One iteration of the `funnel.forEach((step, i) => ...)` scan that
finds the biggest drop-off. The accumulator is
`(biggestDropoff, biggestDropoffPct)`, with `none` modelling the initial
empty string label. -/
def bdStep (f : List FunnelStep) (acc : Option (Nat × Nat) × ℚ) (i : Nat) :
    Option (Nat × Nat) × ℚ :=
  if bdQual f i then
    if acc.2 < dropPctQ f i then (some (i - 1, i), dropPctQ f i) else acc
  else acc

/-- The biggest drop-off scan over the whole funnel: returns the label
(as the index pair of the transition, `none` for the empty string) and
the running maximum percentage (initially `0`). -/
def biggestDropoff (f : List FunnelStep) : Option (Nat × Nat) × ℚ :=
  (List.range f.length).foldl (bdStep f) (none, 0)

/-- The onboarding end-to-end scenario: user A starts and completes on
day 1, user B only starts on day 2. -/
def exOnboarding : List Event :=
  [ { received_at := 0, firebase_uid := "A", event_name := "onboarding_started" }
  , { received_at := 3600000, firebase_uid := "A", event_name := "onboarding_completed" }
  , { received_at := msPerDay, firebase_uid := "B", event_name := "onboarding_started" } ]

/-- A two-step scenario where the second step has more unique users than
the first (monotonicity violated by the instrumentation). -/
def exNonMonotone : List Event :=
  [ { received_at := 0, firebase_uid := "A", event_name := "s2" }
  , { received_at := 0, firebase_uid := "B", event_name := "s2" }
  , { received_at := 0, firebase_uid := "A", event_name := "s1" } ]

theorem funnel_users_eq (events : List Event) (steps : List String) (i : Nat)
    (h : i < (funnel events steps).length) :
    ((funnel events steps)[i]).users = (stepUsers events (steps.getD i "")).card := by
  simp only [funnel_length] at h
  simp only [funnel, List.getElem_map, List.getElem_range]
  split <;> rfl

theorem funnel_getElem_succ (events : List Event) (steps : List String) (i : Nat)
    (h : i + 1 < (funnel events steps).length) :
    (funnel events steps)[i + 1] =
      { value := stepCount events (steps.getD (i + 1) "")
        users := (stepUsers events (steps.getD (i + 1) "")).card
        dropoff := ((stepUsers events (steps.getD i "")).card : Int)
          - ((stepUsers events (steps.getD (i + 1) "")).card : Int)
        dropoffPct :=
          if 0 < (stepUsers events (steps.getD i "")).card then
            some (jsToFixedDiv
              (100 * (((stepUsers events (steps.getD i "")).card : Int)
                - ((stepUsers events (steps.getD (i + 1) "")).card : Int)))
              (stepUsers events (steps.getD i "")).card)
          else none } := by
  simp only [funnel_length] at h
  simp only [funnel, List.getElem_map, List.getElem_range]
  simp

/-- **C1**: for every list of events and ordered list of funnel steps,
each step `i > 0` reports a drop-off of `usersAtStep[i-1] - usersAtStep[i]`
(as a signed number, not clamped at 0) and a drop-off percentage of
`dropoff / usersAtStep[i-1] * 100` rounded to the nearest integer, with
the empty string (`none`) when `usersAtStep[i-1]` is zero; in the
two-user end-to-end scenario the funnel over started/completed yields
users `2` and `1`, drop-off `1` and percentage `50`, and in a
non-monotone scenario the drop-off is the negative `-1`. -/
theorem funnel_dropoff_correct :
    (∀ (events : List Event) (steps : List String) (i : Nat)
        (h1 : i < (funnel events steps).length)
        (h2 : i + 1 < (funnel events steps).length),
        ((funnel events steps)[i + 1]).dropoff
            = (((funnel events steps)[i]).users : Int)
              - (((funnel events steps)[i + 1]).users : Int)
        ∧ ((funnel events steps)[i + 1]).dropoffPct
            = (if 0 < ((funnel events steps)[i]).users then
                some (jsToFixedDiv (100 * ((funnel events steps)[i + 1]).dropoff)
                  ((funnel events steps)[i]).users)
              else none))
    ∧ funnel exOnboarding ["onboarding_started", "onboarding_completed"]
        = [⟨2, 2, 0, none⟩, ⟨1, 1, 1, some 50⟩]
    ∧ (funnel exNonMonotone ["s1", "s2"]).getD 1 default = ⟨2, 2, -1, some (-100)⟩ := by
  refine ⟨?_, by decide, by decide⟩
  intro events steps i h1 h2
  rw [funnel_getElem_succ events steps i h2, funnel_users_eq events steps i h1]
  exact ⟨rfl, rfl⟩

theorem funnel_dropoff_correct_witness :
    ((funnel exOnboarding ["onboarding_started", "onboarding_completed"]).get ⟨1, by simp⟩).dropoff
      = (((funnel exOnboarding ["onboarding_started", "onboarding_completed"]).get ⟨0, by simp⟩).users : Int)
        - ((funnel exOnboarding ["onboarding_started", "onboarding_completed"]).get ⟨1, by simp⟩).users := by
  have h := (funnel_dropoff_correct.1 exOnboarding ["onboarding_started", "onboarding_completed"] 0
    (by simp) (by simp)).1
  simpa using h

theorem bdQual_lt_length (f : List FunnelStep) (i : Nat) (h : bdQual f i) : i < f.length := by
  by_contra hge
  refine h.2.1 ?_
  rw [List.getD_eq_default _ _ (by omega)]
  rfl

/-- Invariant of the biggest-drop-off scan: folding `bdStep` over a
strictly increasing index list either leaves the accumulator unchanged
(and then no qualifying index beats it) or returns the first qualifying
index that attains the maximum percentage, which strictly beats the
initial accumulator. -/
theorem bd_foldl_spec (f : List FunnelStep) :
    ∀ (is : List Nat) (acc : Option (Nat × Nat) × ℚ), List.Pairwise (· < ·) is →
      (is.foldl (bdStep f) acc = acc
        ∧ ∀ i ∈ is, bdQual f i → dropPctQ f i ≤ acc.2)
      ∨ (∃ j ∈ is, bdQual f j
          ∧ (is.foldl (bdStep f) acc).1 = some (j - 1, j)
          ∧ (is.foldl (bdStep f) acc).2 = dropPctQ f j
          ∧ acc.2 < dropPctQ f j
          ∧ (∀ i ∈ is, i < j → bdQual f i → dropPctQ f i < dropPctQ f j)
          ∧ (∀ i ∈ is, bdQual f i → dropPctQ f i ≤ dropPctQ f j)) := by
  intro is
  induction is with
  | nil => intro acc _; left; exact ⟨rfl, by simp⟩
  | cons i is ih =>
    intro acc hpw
    rw [List.pairwise_cons] at hpw
    obtain ⟨hfirst, hpw'⟩ := hpw
    rw [List.foldl_cons]
    by_cases hq : bdQual f i
    · by_cases hlt : acc.2 < dropPctQ f i
      · -- the head is taken, the accumulator becomes (some (i-1, i), pct i)
        have hstep : bdStep f acc i = (some (i - 1, i), dropPctQ f i) := by
          simp [bdStep, hq, hlt]
        rw [hstep]
        rcases ih (some (i - 1, i), dropPctQ f i) hpw' with ⟨hr, hb⟩ | ⟨j, hjmem, hjq, hr1, hr2, hgt, hfst, hub⟩
        · right
          refine ⟨i, List.mem_cons_self i is, hq, ?_, ?_, hlt, ?_, ?_⟩
          · rw [hr]
          · rw [hr]
          · intro k hk hki _
            rcases List.mem_cons.mp hk with rfl | hk'
            · omega
            · exact absurd hki (by have := hfirst k hk'; omega)
          · intro k hk hkq
            rcases List.mem_cons.mp hk with rfl | hk'
            · exact le_refl _
            · exact hb k hk' hkq
        · right
          refine ⟨j, List.mem_cons_of_mem i hjmem, hjq, hr1, hr2, lt_trans hlt hgt, ?_, ?_⟩
          · intro k hk hkj hkq
            rcases List.mem_cons.mp hk with rfl | hk'
            · exact lt_of_le_of_lt (le_of_eq rfl) hgt
            · exact hfst k hk' hkj hkq
          · intro k hk hkq
            rcases List.mem_cons.mp hk with rfl | hk'
            · exact le_of_lt hgt
            · exact hub k hk' hkq
      · -- qualifying but not beating the accumulator: skipped
        push_neg at hlt
        have hstep : bdStep f acc i = acc := by
          simp [bdStep, hq, not_lt.mpr hlt]
        rw [hstep]
        rcases ih acc hpw' with ⟨hr, hb⟩ | ⟨j, hjmem, hjq, hr1, hr2, hgt, hfst, hub⟩
        · left
          refine ⟨hr, ?_⟩
          intro k hk hkq
          rcases List.mem_cons.mp hk with rfl | hk'
          · exact hlt
          · exact hb k hk' hkq
        · right
          refine ⟨j, List.mem_cons_of_mem i hjmem, hjq, hr1, hr2, hgt, ?_, ?_⟩
          · intro k hk hkj hkq
            rcases List.mem_cons.mp hk with rfl | hk'
            · exact lt_of_le_of_lt hlt hgt
            · exact hfst k hk' hkj hkq
          · intro k hk hkq
            rcases List.mem_cons.mp hk with rfl | hk'
            · exact le_of_lt (lt_of_le_of_lt hlt hgt)
            · exact hub k hk' hkq
    · -- not qualifying: skipped
      have hstep : bdStep f acc i = acc := by simp [bdStep, hq]
      rw [hstep]
      rcases ih acc hpw' with ⟨hr, hb⟩ | ⟨j, hjmem, hjq, hr1, hr2, hgt, hfst, hub⟩
      · left
        refine ⟨hr, ?_⟩
        intro k hk hkq
        rcases List.mem_cons.mp hk with rfl | hk'
        · exact absurd hkq hq
        · exact hb k hk' hkq
      · right
        refine ⟨j, List.mem_cons_of_mem i hjmem, hjq, hr1, hr2, hgt, ?_, ?_⟩
        · intro k hk hkj hkq
          rcases List.mem_cons.mp hk with rfl | hk'
          · exact absurd hkq hq
          · exact hfst k hk' hkj hkq
        · intro k hk hkq
          rcases List.mem_cons.mp hk with rfl | hk'
          · exact absurd hkq hq
          · exact hub k hk' hkq

/-- A funnel scenario whose user counts per step are `[100, 80, 80, 50]`:
the spec example for the biggest-drop-off selection. -/
def mkStepEvents (name : String) (n : Nat) : List Event :=
  (List.range n).map (fun k =>
    { received_at := 0, firebase_uid := "u" ++ toString k, event_name := name })

def exBigFunnel : List Event :=
  mkStepEvents "s1" 100 ++ mkStepEvents "s2" 80 ++ mkStepEvents "s3" 80 ++ mkStepEvents "s4" 50

/-- A two-step scenario with one user reaching both steps: its only
transition has drop-off percentage 0, which is maximal, yet the scan
reports no transition. -/
def exFlat : List Event :=
  [ { received_at := 0, firebase_uid := "A", event_name := "s1" }
  , { received_at := 0, firebase_uid := "A", event_name := "s2" } ]

/-- **C8 counterexample**: in the funnel built from `exFlat` the unique
transition (step 0 to step 1, both with one user) has drop-off
percentage 0, the maximum over the whole funnel; the claim says the
reported biggest drop-off is that maximal transition, but the scan
reports the empty label (`none`) because a zero drop-off is falsy in JS
and a transition is only recorded when it strictly exceeds the running
maximum that starts at 0. -/
theorem biggestDropoff_zero_max_unreported :
    ((funnel exFlat ["s1", "s2"]).getD 0 default).users = 1
    ∧ ((funnel exFlat ["s1", "s2"]).getD 1 default).users = 1
    ∧ (biggestDropoff (funnel exFlat ["s1", "s2"])).1 = none := by
  have hf : funnel exFlat ["s1", "s2"] = [⟨1, 1, 0, none⟩, ⟨1, 1, 0, some 0⟩] := by decide
  have hr : List.range 2 = [0, 1] := by decide
  rw [hf]
  refine ⟨rfl, rfl, ?_⟩
  simp only [biggestDropoff, List.length_cons, List.length_nil, hr, List.foldl,
    bdStep, bdQual, dropPctQ]
  norm_num

set_option maxRecDepth 1000000 in
/-- **C8 (amended)**: the biggest-drop-off scan is a single linear pass
that considers only transitions with a nonzero drop-off and a positive
previous-step user count; it reports the first transition attaining the
maximum drop-off percentage provided that maximum is strictly positive,
and reports the empty label when no considered transition has a positive
percentage. With step user counts `[100, 80, 80, 50]` the 80 to 50
transition (index pair `(2, 3)`) is selected. -/
theorem biggestDropoff_first_positive_max :
    (∀ f : List FunnelStep,
      ((biggestDropoff f).1 = none → ∀ i, bdQual f i → dropPctQ f i ≤ 0)
      ∧ (∀ p, (biggestDropoff f).1 = some p →
          ∃ j, p = (j - 1, j) ∧ bdQual f j ∧ 0 < dropPctQ f j
            ∧ (biggestDropoff f).2 = dropPctQ f j
            ∧ (∀ i, bdQual f i → dropPctQ f i ≤ dropPctQ f j)
            ∧ (∀ i, i < j → bdQual f i → dropPctQ f i < dropPctQ f j)))
    ∧ (biggestDropoff (funnel exBigFunnel ["s1", "s2", "s3", "s4"])).1 = some (2, 3) := by
  constructor
  · intro f
    rcases bd_foldl_spec f (List.range f.length) (none, 0) (List.pairwise_lt_range _) with
      ⟨hr, hb⟩ | ⟨j, hjmem, hjq, hr1, hr2, hgt, hfst, hub⟩
    · constructor
      · intro _ i hq
        exact hb i (List.mem_range.mpr (bdQual_lt_length f i hq)) hq
      · intro p hp
        rw [show biggestDropoff f = (List.range f.length).foldl (bdStep f) (none, 0) from rfl, hr] at hp
        exact absurd hp (by simp)
    · have hsome : (biggestDropoff f).1 = some (j - 1, j) := hr1
      constructor
      · intro hnone
        rw [hsome] at hnone; exact absurd hnone (by simp)
      · intro p hp
        rw [hsome] at hp
        refine ⟨j, by injection hp with h; exact h.symm, hjq, hgt, hr2, ?_, ?_⟩
        · intro i hiq
          exact hub i (List.mem_range.mpr (bdQual_lt_length f i hiq)) hiq
        · intro i hij hiq
          exact hfst i (List.mem_range.mpr (bdQual_lt_length f i hiq)) hij hiq
  · have hf : funnel exBigFunnel ["s1", "s2", "s3", "s4"]
        = [⟨100, 100, 0, none⟩, ⟨80, 80, 20, some 20⟩, ⟨80, 80, 0, some 0⟩, ⟨50, 50, 30, some 38⟩] := by
      decide
    have hr : List.range 4 = [0, 1, 2, 3] := by decide
    rw [hf]
    simp only [biggestDropoff, List.length_cons, List.length_nil, hr, List.foldl,
      bdStep, bdQual, dropPctQ]
    norm_num

theorem biggestDropoff_first_positive_max_witness :
    dropPctQ (funnel exNonMonotone ["s1", "s2"]) 1 ≤ 0 := by
  refine (biggestDropoff_first_positive_max.1 (funnel exNonMonotone ["s1", "s2"])).1 ?_ 1 ?_
  · have hf : funnel exNonMonotone ["s1", "s2"] = [⟨1, 1, 0, none⟩, ⟨2, 2, -1, some (-100)⟩] := by
      decide
    rw [hf]
    have hr : List.range 2 = [0, 1] := by decide
    simp only [biggestDropoff, List.length_cons, List.length_nil, hr, List.foldl,
      bdStep, bdQual, dropPctQ]
    norm_num
  · refine ⟨by omega, ?_, ?_⟩
    · decide
    · decide

/-! ## Calendar and bucketing (src: `dailyMap` / `weeklyMap` groupings) -/

/-- The day index of the Monday starting the week of day `d`
(`startOfWeek(date, { weekStartsOn: 1 })`): epoch day 0 is a Thursday,
so day `d` is a Monday iff `(d + 3) % 7 = 0`. -/
def weekStartDay (d : Int) : Int := d - (d + 3) % 7

/-- Gregorian calendar date `(year, month, day)` of an epoch day number
(standard civil-from-days algorithm, as used by `date-fns` formatting). -/
def civilFromDays (z : Int) : Int × Nat × Nat :=
  let z' := z + 719468
  let era := z'.fdiv 146097
  let doe := (z' - era * 146097).toNat
  let yoe := (doe - doe / 1460 + doe / 36524 - doe / 146096) / 365
  let doy := doe - (365 * yoe + yoe / 4 - yoe / 100)
  let mp := (5 * doy + 2) / 153
  let d := doy - (153 * mp + 2) / 5 + 1
  let m := if mp < 10 then mp + 3 else mp - 9
  (era * 400 + yoe + (if m ≤ 2 then 1 else 0), m, d)

/-- The weekly bucket key: `format(startOfWeek(date, Monday), 'MMM dd')`
keeps only the month and day of the week start, dropping the year. -/
def weeklyKey (t : Int) : Nat × Nat := (civilFromDays (weekStartDay (dayIdx t))).2

/-- `if (!map.has(k)) map.set(k, init); mutate(map.get(k))` on a JS
`Map`: updates the entry in place or appends a new key at the end
(JS `Map` iteration is in key-insertion order). -/
def mapUpd [DecidableEq κ] (m : List (κ × β)) (k : κ) (upd : β → β) (init : β) :
    List (κ × β) :=
  match m with
  | [] => [(k, upd init)]
  | (k', v) :: rest =>
    if k = k' then (k', upd v) :: rest else (k', v) :: mapUpd rest k upd init

/-- The weekly bucket update: add the user and count basket events. -/
def weeklyBucketUpd (e : Event) (v : Finset String × Nat) : Finset String × Nat :=
  (insert e.firebase_uid v.1,
    v.2 + (if e.event_name == "basket_results_displayed" then 1 else 0))

/-- `map.get k` on an association list. -/
def alookup [DecidableEq κ] (k : κ) : List (κ × β) → Option β
  | [] => none
  | (k', v) :: rest => if k = k' then some v else alookup k rest

theorem alookup_mapUpd_self [DecidableEq κ] (m : List (κ × β)) (k : κ) (upd : β → β)
    (init : β) :
    alookup k (mapUpd m k upd init) = some (upd ((alookup k m).getD init)) := by
  induction m with
  | nil => simp [mapUpd, alookup]
  | cons p rest ih =>
    obtain ⟨k', v⟩ := p
    by_cases h : k = k'
    · subst h
      simp [mapUpd, alookup]
    · simp [mapUpd, h, alookup, ih]

theorem alookup_mapUpd_ne [DecidableEq κ] (m : List (κ × β)) (k k' : κ) (upd : β → β)
    (init : β) (h : k' ≠ k) :
    alookup k' (mapUpd m k upd init) = alookup k' m := by
  induction m with
  | nil => simp [mapUpd, alookup, h]
  | cons p rest ih =>
    obtain ⟨k'', v⟩ := p
    by_cases h2 : k = k''
    · subst h2
      simp [mapUpd, alookup, h]
    · by_cases h3 : k' = k''
      · subst h3
        simp [mapUpd, h2, alookup]
      · simp [mapUpd, h2, alookup, h3, ih]

theorem foldl_mapUpd_mem {α κ β ι : Type} [DecidableEq κ]
    (key : α → κ) (tag : α → ι) (mem : ι → β → Prop)
    (f : List (κ × β) → α → List (κ × β))
    (h1 : ∀ m a, ∃ v, alookup (key a) (f m a) = some v ∧ mem (tag a) v)
    (h2 : ∀ m a k v, alookup k m = some v →
      ∃ w, alookup k (f m a) = some w ∧ (∀ u, mem u v → mem u w)) :
    ∀ (l : List α) (m : List (κ × β)) (e : α),
      (e ∈ l ∨ ∃ v, alookup (key e) m = some v ∧ mem (tag e) v) →
      ∃ v, alookup (key e) (l.foldl f m) = some v ∧ mem (tag e) v := by
  intro l
  induction l with
  | nil =>
    intro m e hm
    rcases hm with h | h
    · exact absurd h (List.not_mem_nil e)
    · exact h
  | cons a l ih =>
    intro m e hm
    rw [List.foldl_cons]
    apply ih
    rcases hm with h | ⟨v, hv, hmem⟩
    · rcases List.mem_cons.mp h with rfl | hl
      · exact Or.inr (h1 m e)
      · exact Or.inl hl
    · obtain ⟨w, hw, hmw⟩ := h2 m a (key e) v hv
      exact Or.inr ⟨w, hw, hmw _ hmem⟩

/-- One step of the weekly grouping loop of the users page. -/
def weeklyMapStep (m : List ((Nat × Nat) × Finset String × Nat)) (e : Event) :
    List ((Nat × Nat) × Finset String × Nat) :=
  mapUpd m (weeklyKey e.received_at) (weeklyBucketUpd e) (∅, 0)

def weeklyMap (events : List Event) : List ((Nat × Nat) × Finset String × Nat) :=
  events.foldl weeklyMapStep []

theorem weeklyMapStep_lookup_self (m : List ((Nat × Nat) × Finset String × Nat)) (a : Event) :
    ∃ v, alookup (weeklyKey a.received_at) (weeklyMapStep m a) = some v
      ∧ a.firebase_uid ∈ v.1 := by
  rw [weeklyMapStep, alookup_mapUpd_self]
  exact ⟨_, rfl, Finset.mem_insert_self _ _⟩

theorem weeklyMapStep_lookup_mono (m : List ((Nat × Nat) × Finset String × Nat)) (a : Event)
    (k : Nat × Nat) (v : Finset String × Nat) (hv : alookup k m = some v) :
    ∃ w, alookup k (weeklyMapStep m a) = some w ∧ (∀ u, u ∈ v.1 → u ∈ w.1) := by
  rw [weeklyMapStep]
  by_cases hk : k = weeklyKey a.received_at
  · subst hk
    rw [alookup_mapUpd_self, hv]
    exact ⟨_, rfl, fun u hu => Finset.mem_insert_of_mem hu⟩
  · rw [alookup_mapUpd_ne _ _ _ _ _ hk, hv]
    exact ⟨v, rfl, fun u hu => hu⟩

theorem weeklyMap_mem_bucket (events : List Event) (e : Event) (he : e ∈ events) :
    ∃ v, alookup (weeklyKey e.received_at) (weeklyMap events) = some v
      ∧ e.firebase_uid ∈ v.1 := by
  have H := foldl_mapUpd_mem (α := Event) (κ := Nat × Nat) (β := Finset String × Nat)
    (ι := String) (fun e => weeklyKey e.received_at)
    (fun e => e.firebase_uid) (fun u v => u ∈ v.1) weeklyMapStep
  exact H weeklyMapStep_lookup_self weeklyMapStep_lookup_mono events [] e (Or.inl he)

/-- The daily bucket update of the users page: add the user, count the
event. -/
def dailyBucketUpd (e : Event) (v : Finset String × Nat) : Finset String × Nat :=
  (insert e.firebase_uid v.1, v.2 + 1)

def dailyMapStep (m : List (Int × Finset String × Nat)) (e : Event) :
    List (Int × Finset String × Nat) :=
  mapUpd m (dayIdx e.received_at) (dailyBucketUpd e) (∅, 0)

def dailyMap (events : List Event) : List (Int × Finset String × Nat) :=
  events.foldl dailyMapStep []

theorem dailyMapStep_lookup_self (m : List (Int × Finset String × Nat)) (a : Event) :
    ∃ v, alookup (dayIdx a.received_at) (dailyMapStep m a) = some v
      ∧ a.firebase_uid ∈ v.1 := by
  rw [dailyMapStep, alookup_mapUpd_self]
  exact ⟨_, rfl, Finset.mem_insert_self _ _⟩

theorem dailyMapStep_lookup_mono (m : List (Int × Finset String × Nat)) (a : Event)
    (k : Int) (v : Finset String × Nat) (hv : alookup k m = some v) :
    ∃ w, alookup k (dailyMapStep m a) = some w ∧ (∀ u, u ∈ v.1 → u ∈ w.1) := by
  rw [dailyMapStep]
  by_cases hk : k = dayIdx a.received_at
  · subst hk
    rw [alookup_mapUpd_self, hv]
    exact ⟨_, rfl, fun u hu => Finset.mem_insert_of_mem hu⟩
  · rw [alookup_mapUpd_ne _ _ _ _ _ hk, hv]
    exact ⟨v, rfl, fun u hu => hu⟩

theorem dailyMap_mem_bucket (events : List Event) (e : Event) (he : e ∈ events) :
    ∃ v, alookup (dayIdx e.received_at) (dailyMap events) = some v
      ∧ e.firebase_uid ∈ v.1 := by
  have H := foldl_mapUpd_mem (α := Event) (κ := Int) (β := Finset String × Nat)
    (ι := String) (fun e => dayIdx e.received_at)
    (fun e => e.firebase_uid) (fun u v => u ∈ v.1) dailyMapStep
  exact H dailyMapStep_lookup_self dailyMapStep_lookup_mono events [] e (Or.inl he)

/-- 2018-01-01, epoch day 17532, a Monday. -/
def exMonday2018 : Event :=
  { received_at := 17532 * msPerDay, firebase_uid := "A", event_name := "e", props := {} }

/-- 2024-01-01, epoch day 19723, also a Monday, six years later. -/
def exMonday2024 : Event :=
  { received_at := 19723 * msPerDay, firebase_uid := "B", event_name := "e", props := {} }

/-- **C9 counterexample**: the events of Monday 2018-01-01 and Monday
2024-01-01 are in different Monday-started weeks (their week-start days
differ), yet the weekly bucket key — month and day of the week start,
with the year dropped by the `'MMM dd'` format — is `(1, 1)` for both,
so the two records are merged into a single weekly bucket, refuting
"same weekly bucket iff same Monday-started week". -/
theorem weekly_year_collision :
    dayIdx exMonday2018.received_at ≠ dayIdx exMonday2024.received_at
    ∧ weekStartDay (dayIdx exMonday2018.received_at)
        ≠ weekStartDay (dayIdx exMonday2024.received_at)
    ∧ weeklyKey exMonday2018.received_at = weeklyKey exMonday2024.received_at
    ∧ weeklyMap [exMonday2018, exMonday2024]
        = [((1, 1), insert "B" {"A"}, 0)] := by
  refine ⟨by decide, by decide, by decide, by decide⟩

/-- **C9 (amended)**: daily buckets are keyed by the record's own
calendar day and weekly buckets by the Monday-started week of the
record's own timestamp, except that the weekly key drops the year:
the week window starts on a Monday and contains the record's day,
records of the same Monday-started week always share a weekly bucket,
and every record lands in the daily bucket of its own day and in the
weekly bucket of its own week key; but two records of distinct
Monday-started weeks whose Mondays share month and day collide (see the
counterexample), so the bucket equivalence holds in one direction only.
Days 17532 and 17535 are 2018-01-01 and 2018-01-04, calibrating the
week start to Monday. -/
theorem bucketing_by_day_and_week :
    (∀ t : Int, (weekStartDay (dayIdx t) + 3) % 7 = 0
      ∧ weekStartDay (dayIdx t) ≤ dayIdx t
      ∧ dayIdx t < weekStartDay (dayIdx t) + 7)
    ∧ (∀ t t' : Int, weekStartDay (dayIdx t) = weekStartDay (dayIdx t') →
        weeklyKey t = weeklyKey t')
    ∧ (∀ (events : List Event) (e : Event), e ∈ events →
        ∃ v, alookup (weeklyKey e.received_at) (weeklyMap events) = some v
          ∧ e.firebase_uid ∈ v.1)
    ∧ (∀ (events : List Event) (e : Event), e ∈ events →
        ∃ v, alookup (dayIdx e.received_at) (dailyMap events) = some v
          ∧ e.firebase_uid ∈ v.1)
    ∧ weekStartDay 17535 = 17532 ∧ civilFromDays 17532 = (2018, 1, 1)
    ∧ civilFromDays 17535 = (2018, 1, 4) := by
  refine ⟨?_, ?_, weeklyMap_mem_bucket, dailyMap_mem_bucket, by decide, by decide, by decide⟩
  · intro t
    generalize dayIdx t = d
    unfold weekStartDay
    omega
  · intro t t' h
    unfold weeklyKey
    rw [h]

theorem bucketing_by_day_and_week_witness :
    weeklyKey (17534 * msPerDay) = weeklyKey (17535 * msPerDay + 5)
    ∧ (alookup (weeklyKey exMonday2018.received_at) (weeklyMap [exMonday2018])).isSome = true
    ∧ (alookup (dayIdx exMonday2018.received_at) (dailyMap [exMonday2018])).isSome = true := by
  refine ⟨?_, ?_, ?_⟩
  · exact bucketing_by_day_and_week.2.1 _ _ (by decide)
  · obtain ⟨v, hv, _⟩ := bucketing_by_day_and_week.2.2.1 [exMonday2018] exMonday2018
      (List.mem_singleton.mpr rfl)
    rw [hv]; rfl
  · obtain ⟨v, hv, _⟩ := bucketing_by_day_and_week.2.2.2.1 [exMonday2018] exMonday2018
      (List.mem_singleton.mpr rfl)
    rw [hv]; rfl

/-! ## Cohort retention (src: users page, `cohorts`) -/

/-- The cohort of week `w` (weeks ago): unique users with an event in
`[now - w weeks, now - (w-1) weeks)`. -/
def cohortUsersOf (events : List Event) (now : Int) (w : Int) : Finset String :=
  uidsOf (events.filter (fun e =>
    decide (now - w * msPerWeek ≤ e.received_at)
    && decide (e.received_at < now - (w - 1) * msPerWeek)))

/-- `checkRetention(weeksLater)`: the number of cohort users with an
event in the checkpoint window `k` weeks after the cohort start; `0`
when the window would start after "now". -/
def checkRetention (events : List Event) (now : Int) (w : Int)
    (cohort : Finset String) (k : Int) : Nat :=
  if w - k < 0 then 0
  else
    (uidsOf (events.filter (fun e =>
      decide (now - (w - k) * msPerWeek ≤ e.received_at)
      && decide (e.received_at < now - (max 0 ((w - k - 1) * 7)) * msPerDay)
      && decide (e.firebase_uid ∈ cohort)))).card

/-- One row of the cohort retention table. The source labels the row
with `format(cohortStart, 'MMM dd')`; the row keeps the underlying
cohort start instant. -/
structure RetentionRow where
  cohortStart : Int
  users : Nat
  w1 : Nat
  w2 : Nat
  w4 : Nat
  deriving DecidableEq

/-- The row pushed for the cohort of week `w`. -/
def cohortRow (events : List Event) (now : Int) (w : Int) : RetentionRow :=
  let cu := cohortUsersOf events now w
  { cohortStart := now - w * msPerWeek
    users := cu.card
    w1 := if 0 < cu.card then roundPct (checkRetention events now w cu 1) cu.card else 0
    w2 := if 0 < cu.card then roundPct (checkRetention events now w cu 2) cu.card else 0
    w4 := if 0 < cu.card then roundPct (checkRetention events now w cu 4) cu.card else 0 }

/-- The cohort retention table: `for (weeksAgo = 4; weeksAgo >= 1;
weeksAgo--)`, skipping cohorts with no users. -/
def cohorts (events : List Event) (now : Int) : List RetentionRow :=
  ([4, 3, 2, 1] : List Int).filterMap (fun w =>
    if (cohortUsersOf events now w).card = 0 then none
    else some (cohortRow events now w))

theorem roundPct_zero (b : Nat) : roundPct 0 b = 0 := by
  unfold roundPct
  match b with
  | 0 => rfl
  | b + 1 => exact Nat.div_eq_of_lt (by omega)

theorem checkRetention_of_past (events : List Event) (now : Int) (w : Int)
    (cohort : Finset String) (k : Int) (h : w ≤ k) :
    checkRetention events now w cohort k = 0 := by
  unfold checkRetention
  by_cases hlt : w - k < 0
  · rw [if_pos hlt]
  · rw [if_neg hlt]
    have hwk : w = k := by omega
    have : events.filter (fun e =>
        decide (now - (w - k) * msPerWeek ≤ e.received_at)
        && decide (e.received_at < now - (max 0 ((w - k - 1) * 7)) * msPerDay)
        && decide (e.firebase_uid ∈ cohort)) = [] := by
      rw [List.filter_eq_nil_iff]
      intro e _
      have h0 : w - k = 0 := by omega
      rw [h0]
      have hmax : max (0 : Int) ((0 - 1) * 7) = 0 := by norm_num
      rw [hmax]
      simp only [zero_mul, sub_zero, Bool.and_eq_true, decide_eq_true_eq, not_and]
      intro h1 h2
      omega
    rw [this]
    simp [uidsOf]

theorem retention_pct_zero (events : List Event) (now w : Int) (cu : Finset String)
    (k : Int) (h : w ≤ k) :
    (if 0 < cu.card then roundPct (checkRetention events now w cu k) cu.card else 0) = 0 := by
  split
  · rw [checkRetention_of_past _ _ _ _ _ h, roundPct_zero]
  · rfl

/-- **C4**: the cohort retention table lists cohorts in chronological
ascending order of cohort start; every listed cohort has a nonempty
initial user set (empty cohorts are omitted); for every checkpoint `k`
in {1, 2, 4} whose week window starts at or after "now" the reported
retention is `0`, still present as a field of the row; and any week
among the four scanned with a nonempty cohort produces a row. -/
theorem cohorts_spec :
    (∀ (events : List Event) (now : Int),
      List.Pairwise (fun a b => a.cohortStart < b.cohortStart) (cohorts events now))
    ∧ (∀ (events : List Event) (now : Int) (r : RetentionRow),
        r ∈ cohorts events now → 0 < r.users)
    ∧ (∀ (events : List Event) (now : Int) (r : RetentionRow),
        r ∈ cohorts events now →
        (now ≤ r.cohortStart + 1 * msPerWeek → r.w1 = 0)
        ∧ (now ≤ r.cohortStart + 2 * msPerWeek → r.w2 = 0)
        ∧ (now ≤ r.cohortStart + 4 * msPerWeek → r.w4 = 0))
    ∧ (∀ (events : List Event) (now : Int) (w : Int), w ∈ ([4, 3, 2, 1] : List Int) →
        0 < (cohortUsersOf events now w).card →
        cohortRow events now w ∈ cohorts events now) := by
  have hposW : (0 : Int) < msPerWeek := by norm_num [msPerWeek, msPerDay]
  refine ⟨?_, ?_, ?_, ?_⟩
  · intro events now
    unfold cohorts
    apply List.Pairwise.filterMap
    · intro a a' haa b hb b' hb'
      simp only [Option.mem_def] at hb hb'
      split at hb
      · exact absurd hb (by simp)
      · split at hb'
        · exact absurd hb' (by simp)
        · injection hb with hb
          injection hb' with hb'
          subst hb; subst hb'
          show (cohortRow events now a).cohortStart < (cohortRow events now a').cohortStart
          simp only [cohortRow]
          have : a' * msPerWeek < a * msPerWeek :=
            mul_lt_mul_of_pos_right haa hposW
          omega
    · decide
  · intro events now r hr
    unfold cohorts at hr
    rw [List.mem_filterMap] at hr
    obtain ⟨w, hw, hfw⟩ := hr
    split at hfw
    · exact absurd hfw (by simp)
    · injection hfw with hfw
      subst hfw
      simp only [cohortRow]
      omega
  · intro events now r hr
    unfold cohorts at hr
    rw [List.mem_filterMap] at hr
    obtain ⟨w, hw, hfw⟩ := hr
    split at hfw
    · exact absurd hfw (by simp)
    · injection hfw with hfw
      subst hfw
      simp only [cohortRow]
      have hcond : ∀ k : Int, now ≤ now - w * msPerWeek + k * msPerWeek → w ≤ k := by
        intro k hk
        by_contra hlt
        push_neg at hlt
        have h1 : k - w ≤ -1 := by omega
        have h2 : (k - w) * msPerWeek ≤ (-1) * msPerWeek :=
          mul_le_mul_of_nonneg_right h1 (le_of_lt hposW)
        nlinarith
      refine ⟨fun hc => ?_, fun hc => ?_, fun hc => ?_⟩
      · exact retention_pct_zero events now w _ 1 (hcond 1 hc)
      · exact retention_pct_zero events now w _ 2 (hcond 2 hc)
      · exact retention_pct_zero events now w _ 4 (hcond 4 hc)
  · intro events now w hw hcard
    unfold cohorts
    rw [List.mem_filterMap]
    exact ⟨w, hw, by rw [if_neg (by omega)]⟩

def exCohortNow : Int := 1000 * msPerWeek

def exCohort : List Event :=
  [ { received_at := exCohortNow - 3 * msPerDay, firebase_uid := "A", event_name := "e" } ]

theorem cohorts_spec_witness :
    cohortRow exCohort exCohortNow 1 ∈ cohorts exCohort exCohortNow
    ∧ (cohortRow exCohort exCohortNow 1).w4 = 0 := by
  have hmem := cohorts_spec.2.2.2 exCohort exCohortNow 1 (by decide) (by decide)
  exact ⟨hmem, (cohorts_spec.2.2.1 exCohort exCohortNow _ hmem).2.2 (by decide)⟩

/-! ## User segments by activity (src: users page, `segments`) -/

/-- `userActivity.get(u).events`: the user's total event count. -/
def totalEventsOf (events : List Event) (u : String) : Nat :=
  (events.filter (fun e => e.firebase_uid == u)).length

/-- `userActivity.get(u).savings`: summed `savings_cents` over the
user's events; the source adds only truthy values, which coincides with
adding `savings_cents ?? 0` for every event. -/
def totalSavingsOf (events : List Event) (u : String) : Int :=
  ((events.filter (fun e => e.firebase_uid == u)).map
    (fun e => e.props.savings_cents.getD 0)).sum

/-- The segment index chosen by the if/else chain:
50+ events is Power (0), 20+ is Active (1), 5+ is Casual (2),
anything else is New (3). -/
def segIdx (n : Nat) : Nat :=
  if 50 ≤ n then 0 else if 20 ≤ n then 1 else if 5 ≤ n then 2 else 3

/-- Modelled from the spec's words, for comparison with `segIdx`:
thresholds evaluated high-to-low, first (highest) threshold whose
`minEvents` the user meets wins. -/
def specSegIdx (n : Nat) : Nat :=
  List.findIdx (fun m => decide (m ≤ n)) [50, 20, 5, 0]

def segLabels : List String :=
  ["Power (50+ events)", "Active (20-49)", "Casual (5-19)", "New (1-4)"]

/-- The distinct users of the activity map (the JS `Map` iterates each
user exactly once; the segment tallies do not depend on the order). -/
def activityUsers (events : List Event) : List String :=
  (events.map (·.firebase_uid)).dedup

structure Segment where
  segment : String
  users : Nat
  avgEvents : Int
  avgSavings : Int
  deriving DecidableEq

/-- One entry of the `segments` array after tallying and averaging:
counts the users whose event total falls in tier `k`, and divides the
accumulated sums only when the tier is nonempty. -/
def segmentAt (events : List Event) (k : Nat) : Segment :=
  let us := (activityUsers events).filter (fun u => segIdx (totalEventsOf events u) == k)
  let cnt := us.length
  let sumEv : Int := (us.map (fun u => (totalEventsOf events u : Int))).sum
  let sumSav : Int := (us.map (fun u => totalSavingsOf events u)).sum
  { segment := segLabels.getD k ""
    users := cnt
    avgEvents := if 0 < cnt then jsRoundDiv sumEv cnt else 0
    avgSavings := if 0 < cnt then jsRoundDiv sumSav cnt else 0 }

/-- The four segments, always present in threshold order. -/
def segments (events : List Event) : List Segment :=
  [segmentAt events 0, segmentAt events 1, segmentAt events 2, segmentAt events 3]

theorem segIdx_lt_four (n : Nat) : segIdx n < 4 := by
  unfold segIdx
  split <;> [omega; split <;> [omega; split <;> omega]]

theorem length_filter_four (l : List String) (g : String → Nat) (hg : ∀ u, g u < 4) :
    (l.filter (fun u => g u == 0)).length + (l.filter (fun u => g u == 1)).length
      + (l.filter (fun u => g u == 2)).length + (l.filter (fun u => g u == 3)).length
    = l.length := by
  induction l with
  | nil => rfl
  | cons a l ih =>
    have h4 : g a = 0 ∨ g a = 1 ∨ g a = 2 ∨ g a = 3 := by have := hg a; omega
    rcases h4 with h | h | h | h <;>
      simp only [List.filter_cons, h, List.length_cons] <;> norm_num <;> omega

/-- **C5**: `segIdx` equals the spec's highest-threshold-first rule
(thresholds `[50, 20, 5, 0]` evaluated high-to-low, inclusive
boundaries); a user with exactly 20 events lands in "Active (20-49)",
not "Casual"; all four configured segments always appear; a segment
with zero users reports both rounded averages as 0 (no division); and
the segment user counts partition the distinct users: they sum to the
number of unique users, each counted exactly once. -/
theorem segments_spec :
    (∀ n : Nat, segIdx n = specSegIdx n)
    ∧ segIdx 20 = 1 ∧ segLabels.getD (segIdx 20) "" = "Active (20-49)"
    ∧ (∀ events : List Event, (segments events).length = 4)
    ∧ (∀ (events : List Event) (s : Segment), s ∈ segments events →
        s.users = 0 → s.avgEvents = 0 ∧ s.avgSavings = 0)
    ∧ (∀ events : List Event,
        (segmentAt events 0).users + (segmentAt events 1).users
          + (segmentAt events 2).users + (segmentAt events 3).users
        = (activityUsers events).length
        ∧ (activityUsers events).Nodup) := by
  refine ⟨?_, by decide, by decide, fun _ => rfl, ?_, ?_⟩
  · intro n
    unfold segIdx specSegIdx
    by_cases h50 : 50 ≤ n
    · simp [List.findIdx_cons, h50]
    · by_cases h20 : 20 ≤ n
      · simp [List.findIdx_cons, h50, h20]
      · by_cases h5 : 5 ≤ n
        · simp [List.findIdx_cons, h50, h20, h5]
        · simp [List.findIdx_cons, h50, h20, h5]
  · intro events s hs
    have h4 : s = segmentAt events 0 ∨ s = segmentAt events 1
        ∨ s = segmentAt events 2 ∨ s = segmentAt events 3 := by
      simpa [segments] using hs
    have key : ∀ k : Nat, (segmentAt events k).users = 0 →
        (segmentAt events k).avgEvents = 0 ∧ (segmentAt events k).avgSavings = 0 := by
      intro k h0
      simp only [segmentAt] at h0 ⊢
      rw [if_neg (by omega), if_neg (by omega)]
      exact ⟨rfl, rfl⟩
    rcases h4 with rfl | rfl | rfl | rfl <;> exact key _
  · intro events
    refine ⟨?_, List.nodup_dedup _⟩
    simp only [segmentAt]
    exact length_filter_four (activityUsers events)
      (fun u => segIdx (totalEventsOf events u)) (fun u => segIdx_lt_four _)

def exSeg : List Event :=
  ((List.range 20).map (fun k =>
    { received_at := (k : Int), firebase_uid := "A", event_name := "e" : Event }))
  ++ [ { received_at := 0, firebase_uid := "B", event_name := "e",
         props := { savings_cents := some 250 } } ]

theorem segments_spec_witness :
    (segmentAt exSeg 0).avgEvents = 0 ∧ (segmentAt exSeg 0).avgSavings = 0
    ∧ (segmentAt exSeg 1).users = 1 := by
  have h := segments_spec.2.2.2.2.1 exSeg (segmentAt exSeg 0) (by decide) (by decide)
  exact ⟨h.1, h.2, by decide⟩

/-! ## Truly-new vs returning-device users (src: users page, acquisition) -/

/-- One step of the scan over `auth_anonymous_selected` events: an event
with `is_new_user === true` adds its user to the truly-new set,
otherwise one with `is_returning_device === true` adds its user to the
returning-device set. -/
def classifyStep (acc : Finset String × Finset String) (e : Event) :
    Finset String × Finset String :=
  if e.event_name == "auth_anonymous_selected" then
    if e.props.is_new_user == some true then (insert e.firebase_uid acc.1, acc.2)
    else if e.props.is_returning_device == some true then (acc.1, insert e.firebase_uid acc.2)
    else acc
  else acc

def classifySets (events : List Event) : Finset String × Finset String :=
  events.foldl classifyStep (∅, ∅)

def trulyNewUsers (events : List Event) : Finset String := (classifySets events).1

def returningDeviceUsers (events : List Event) : Finset String := (classifySets events).2

theorem classify_foldl_mem (events : List Event) :
    ∀ (acc : Finset String × Finset String) (u : String),
      (u ∈ (events.foldl classifyStep acc).1 ↔ u ∈ acc.1
        ∨ ∃ e ∈ events, e.event_name = "auth_anonymous_selected"
          ∧ e.firebase_uid = u ∧ e.props.is_new_user = some true)
      ∧ (u ∈ (events.foldl classifyStep acc).2 ↔ u ∈ acc.2
        ∨ ∃ e ∈ events, e.event_name = "auth_anonymous_selected"
          ∧ e.firebase_uid = u ∧ e.props.is_new_user ≠ some true
          ∧ e.props.is_returning_device = some true) := by
  induction events with
  | nil => intro acc u; simp
  | cons a l ih =>
    intro acc u
    rw [List.foldl_cons]
    constructor
    · rw [(ih (classifyStep acc a) u).1]
      by_cases hm : a.event_name = "auth_anonymous_selected"
      · by_cases hn : a.props.is_new_user = some true
        · simp only [classifyStep, hm, hn, beq_self_eq_true, if_pos, Finset.mem_insert,
            List.mem_cons]
          constructor
          · rintro ((rfl | h) | ⟨e, he, hp⟩)
            · exact Or.inr ⟨a, Or.inl rfl, hm, rfl, hn⟩
            · exact Or.inl h
            · exact Or.inr ⟨e, Or.inr he, hp⟩
          · rintro (h | ⟨e, (rfl | he), hp⟩)
            · exact Or.inl (Or.inr h)
            · exact Or.inl (Or.inl hp.2.1.symm)
            · exact Or.inr ⟨e, he, hp⟩
        · have hstep : (classifyStep acc a).1 = acc.1 := by
            simp only [classifyStep]
            split
            · rw [if_neg (by simpa using hn)]
              split <;> rfl
            · rfl
          rw [hstep]
          constructor
          · rintro (h | ⟨e, he, hp⟩)
            · exact Or.inl h
            · exact Or.inr ⟨e, List.mem_cons_of_mem a he, hp⟩
          · rintro (h | ⟨e, he, hp⟩)
            · exact Or.inl h
            · rcases List.mem_cons.mp he with rfl | he'
              · exact absurd hp.2.2 hn
              · exact Or.inr ⟨e, he', hp⟩
      · have hstep : (classifyStep acc a).1 = acc.1 := by
          simp only [classifyStep]
          rw [if_neg (by simpa using hm)]
        rw [hstep]
        constructor
        · rintro (h | ⟨e, he, hp⟩)
          · exact Or.inl h
          · exact Or.inr ⟨e, List.mem_cons_of_mem a he, hp⟩
        · rintro (h | ⟨e, he, hp⟩)
          · exact Or.inl h
          · rcases List.mem_cons.mp he with rfl | he'
            · exact absurd hp.1 hm
            · exact Or.inr ⟨e, he', hp⟩
    · rw [(ih (classifyStep acc a) u).2]
      by_cases hm : a.event_name = "auth_anonymous_selected"
      · by_cases hn : a.props.is_new_user = some true
        · have hstep : (classifyStep acc a).2 = acc.2 := by
            simp only [classifyStep, hm, hn, beq_self_eq_true, if_pos]
          rw [hstep]
          constructor
          · rintro (h | ⟨e, he, hp⟩)
            · exact Or.inl h
            · exact Or.inr ⟨e, List.mem_cons_of_mem a he, hp⟩
          · rintro (h | ⟨e, he, hp⟩)
            · exact Or.inl h
            · rcases List.mem_cons.mp he with rfl | he'
              · exact absurd hn hp.2.2.1
              · exact Or.inr ⟨e, he', hp⟩
        · by_cases hr : a.props.is_returning_device = some true
          · have hstep : (classifyStep acc a).2 = insert a.firebase_uid acc.2 := by
              simp only [classifyStep]
              split
              · rw [if_neg (by simpa using hn), if_pos (by simpa using hr)]
              · next hneg => exact absurd hm (by simpa using hneg)
            rw [hstep]
            simp only [Finset.mem_insert, List.mem_cons]
            constructor
            · rintro ((rfl | h) | ⟨e, he, hp⟩)
              · exact Or.inr ⟨a, Or.inl rfl, hm, rfl, hn, hr⟩
              · exact Or.inl h
              · exact Or.inr ⟨e, Or.inr he, hp⟩
            · rintro (h | ⟨e, (rfl | he), hp⟩)
              · exact Or.inl (Or.inr h)
              · exact Or.inl (Or.inl hp.2.1.symm)
              · exact Or.inr ⟨e, he, hp⟩
          · have hstep : (classifyStep acc a).2 = acc.2 := by
              simp only [classifyStep]
              split
              · rw [if_neg (by simpa using hn), if_neg (by simpa using hr)]
              · rfl
            rw [hstep]
            constructor
            · rintro (h | ⟨e, he, hp⟩)
              · exact Or.inl h
              · exact Or.inr ⟨e, List.mem_cons_of_mem a he, hp⟩
            · rintro (h | ⟨e, he, hp⟩)
              · exact Or.inl h
              · rcases List.mem_cons.mp he with rfl | he'
                · exact absurd hp.2.2.2 hr
                · exact Or.inr ⟨e, he', hp⟩
      · have hstep : (classifyStep acc a).2 = acc.2 := by
          simp only [classifyStep]
          rw [if_neg (by simpa using hm)]
        rw [hstep]
        constructor
        · rintro (h | ⟨e, he, hp⟩)
          · exact Or.inl h
          · exact Or.inr ⟨e, List.mem_cons_of_mem a he, hp⟩
        · rintro (h | ⟨e, he, hp⟩)
          · exact Or.inl h
          · rcases List.mem_cons.mp he with rfl | he'
            · exact absurd hp.1 hm
            · exact Or.inr ⟨e, he', hp⟩

/-- Two marker events for the same user with conflicting flags: first
says truly new, second says returning device. -/
def exConflict : List Event :=
  [ { received_at := 0, firebase_uid := "A", event_name := "auth_anonymous_selected",
      props := { is_new_user := some true } }
  , { received_at := 1, firebase_uid := "A", event_name := "auth_anonymous_selected",
      props := { is_returning_device := some true } } ]

/-- **C7 counterexample**: user A has a first marker event flagged
truly-new and a later marker event flagged returning-device; the scan
adds A to NEITHER exclusively — A ends up in both classes, refuting
"at most one class, decided by the first occurrence". -/
theorem classify_both_classes :
    "A" ∈ trulyNewUsers exConflict ∧ "A" ∈ returningDeviceUsers exConflict := by
  exact ⟨by decide, by decide⟩

/-- **C7 (amended)**: each marker-event occurrence classifies its user
independently: a user is in the truly-new set iff some marker event of
theirs carries `is_new_user = true`, and in the returning-device set iff
some marker event of theirs lacks that flag but carries
`is_returning_device = true`. A single occurrence contributes to at most
one class (the new-flag takes precedence within an event), but
conflicting flags across occurrences put the user in both classes; no
occurrence is privileged, in particular not the first. -/
theorem classify_by_each_occurrence :
    ∀ (events : List Event) (u : String),
      (u ∈ trulyNewUsers events ↔ ∃ e ∈ events,
        e.event_name = "auth_anonymous_selected" ∧ e.firebase_uid = u
        ∧ e.props.is_new_user = some true)
      ∧ (u ∈ returningDeviceUsers events ↔ ∃ e ∈ events,
        e.event_name = "auth_anonymous_selected" ∧ e.firebase_uid = u
        ∧ e.props.is_new_user ≠ some true
        ∧ e.props.is_returning_device = some true) := by
  intro events u
  have h := classify_foldl_mem events (∅, ∅) u
  unfold trulyNewUsers returningDeviceUsers classifySets
  simpa using h

def exConflictFirst : Event :=
  { received_at := 0, firebase_uid := "A", event_name := "auth_anonymous_selected",
    props := { is_new_user := some true } }

theorem classify_by_each_occurrence_witness :
    "A" ∈ trulyNewUsers exConflict := by
  refine (classify_by_each_occurrence exConflict "A").1.mpr ?_
  exact ⟨exConflictFirst, by decide, by decide, by decide, by decide⟩

/-! ## Latency percentiles (src: users page, `latencies`) -/

/-- `[...times].sort((a, b) => a - b)`: ascending numeric sort. For
numbers the sorted output is algorithm-independent, so insertion sort
is a faithful model. -/
def sortedTimes (times : List Int) : List Int :=
  List.insertionSort (fun a b : Int => a ≤ b) times

structure LatencyRow where
  count : Nat
  avg : Option Int
  p50 : Int
  p95 : Int
  deriving DecidableEq

/-- The per-response-type latency row: `p50Index = floor(n * 0.5)`
(not clamped in the source), `p95Index = min(floor(n * 0.95), n - 1)`
(which is `-1` on empty input, JS indexing then yields `undefined || 0`),
and `avg = Math.round(sum / n)`, which is `NaN` (modelled `none`) when
`n = 0`. -/
def latencyStats (times : List Int) : LatencyRow :=
  let sorted := sortedTimes times
  let n := times.length
  let p50Index : Int := (n : Int) / 2
  let p95Index : Int := min ((19 * (n : Int)) / 20) ((n : Int) - 1)
  { count := n
    avg := if n = 0 then none else some (jsRoundDiv times.sum n)
    p50 := if p50Index < 0 then 0 else sorted.getD p50Index.toNat 0
    p95 := if p95Index < 0 then 0 else sorted.getD p95Index.toNat 0 }

/-- Modelled from the spec's words: sort ascending, take the element at
index `floor(f * n)` clamped to `[0, n - 1]` (`f = num / den`), and `0`
for empty input. -/
def specPercentile (values : List Int) (num den : Nat) : Int :=
  if values.length = 0 then 0
  else (sortedTimes values).getD (min ((num * values.length) / den) (values.length - 1)) 0

/-- **C6 counterexample**: on the empty value list the percentile
values are 0 as the claim says, but the mean is `Math.round(0 / 0)`,
i.e. `NaN` (modelled `none`), not 0. -/
theorem latency_empty_mean_nan :
    (latencyStats []).p50 = 0 ∧ (latencyStats []).p95 = 0
    ∧ (latencyStats []).avg = none ∧ (latencyStats []).avg ≠ some 0 := by
  refine ⟨rfl, rfl, rfl, by decide⟩

/-- **C6 (amended)**: for nonempty input the latency row sorts the
values ascending (a sorted permutation of the input) and reports the
elements at the spec's clamped indices `floor(0.5 n)` and
`floor(0.95 n)` together with the rounded arithmetic mean and the
count; for the empty input both percentile values are 0 and no error is
raised, but the mean is `NaN` (`none`), not 0. -/
theorem latencyStats_spec :
    (∀ times : List Int, times ≠ [] →
      (latencyStats times).p50 = specPercentile times 1 2
      ∧ (latencyStats times).p95 = specPercentile times 19 20
      ∧ (latencyStats times).avg = some (jsRoundDiv times.sum times.length)
      ∧ (latencyStats times).count = times.length)
    ∧ ((latencyStats []).p50 = 0 ∧ (latencyStats []).p95 = 0
        ∧ (latencyStats []).avg = none)
    ∧ (∀ times : List Int,
        List.Sorted (fun a b : Int => a ≤ b) (sortedTimes times)
        ∧ (sortedTimes times).Perm times) := by
  refine ⟨?_, ⟨rfl, rfl, rfl⟩, ?_⟩
  · intro times hne
    have hn : 0 < times.length := List.length_pos.mpr hne
    have hlen : times.length ≠ 0 := by omega
    refine ⟨?_, ?_, ?_, rfl⟩
    · simp only [latencyStats, specPercentile, if_neg hlen]
      have h1 : ((times.length : Int) / 2) = ((times.length / 2 : Nat) : Int) := by
        omega
      have h2 : ¬ ((times.length : Int) / 2 < 0) := by omega
      rw [if_neg h2, h1]
      have h3 : ((times.length / 2 : Nat) : Int).toNat = times.length / 2 := Int.toNat_ofNat _
      rw [h3]
      have h4 : min (1 * times.length / 2) (times.length - 1) = times.length / 2 := by
        omega
      rw [h4]
    · simp only [latencyStats, specPercentile, if_neg hlen]
      have h2 : ¬ (min ((19 * (times.length : Int)) / 20) ((times.length : Int) - 1) < 0) := by
        omega
      rw [if_neg h2]
      have h3 : (min ((19 * (times.length : Int)) / 20) ((times.length : Int) - 1)).toNat
          = min ((19 * times.length) / 20) (times.length - 1) := by
        omega
      rw [h3]
    · simp only [latencyStats, if_neg hlen]
  · intro times
    exact ⟨List.sorted_insertionSort _ times, List.perm_insertionSort _ times⟩

theorem latencyStats_spec_witness :
    (latencyStats [3, 1, 2]).p50 = specPercentile [3, 1, 2] 1 2
    ∧ (latencyStats [3, 1, 2]).p50 = 2 := by
  refine ⟨(latencyStats_spec.1 [3, 1, 2] (by decide)).1, by decide⟩

/-! ## Malformed records (C3) -/

/-- A raw `analytics_events` row in which the required fields may be
null/absent. -/
structure RawEvent where
  received_at : Option Int
  firebase_uid : Option String
  event_name : String
  props : Props := {}
  deriving DecidableEq

deriving instance DecidableEq for Except

/-- The daily grouping loop run on raw rows. A row with a null
`received_at` makes `e.received_at.split('T')[0]` throw a `TypeError`
(modelled `Except.error ()`), aborting the whole pass; a row with a
null `firebase_uid` proceeds and `day.users.add(null)` inserts `none`
into the bucket's user set. -/
def rawDailyLoop : List RawEvent → List (Int × Finset (Option String) × Nat) →
    Except Unit (List (Int × Finset (Option String) × Nat))
  | [], m => .ok m
  | e :: rest, m =>
    match e.received_at with
    | none => .error ()
    | some t =>
      rawDailyLoop rest (mapUpd m (dayIdx t) (fun v => (insert e.firebase_uid v.1, v.2 + 1)) (∅, 0))

def dailyMapRaw (events : List RawEvent) :
    Except Unit (List (Int × Finset (Option String) × Nat)) :=
  rawDailyLoop events []

theorem rawDailyLoop_error_iff (events : List RawEvent) :
    ∀ m, (rawDailyLoop events m = Except.error ()
      ↔ ∃ e ∈ events, e.received_at = none) := by
  induction events with
  | nil => intro m; simp [rawDailyLoop]
  | cons a l ih =>
    intro m
    match h : a.received_at with
    | none =>
      simp only [rawDailyLoop, h]
      exact ⟨fun _ => ⟨a, List.mem_cons_self a l, h⟩, fun _ => trivial⟩
    | some t =>
      simp only [rawDailyLoop, h, ih]
      constructor
      · rintro ⟨e, he, hp⟩
        exact ⟨e, List.mem_cons_of_mem a he, hp⟩
      · rintro ⟨e, he, hp⟩
        rcases List.mem_cons.mp he with rfl | he'
        · rw [h] at hp; exact absurd hp (by simp)
        · exact ⟨e, he', hp⟩

def exGoodRaw : RawEvent :=
  { received_at := some 5, firebase_uid := some "A", event_name := "e" }

def exNoUidRaw : RawEvent :=
  { received_at := some 6000, firebase_uid := none, event_name := "e" }

def exNoTimeRaw : RawEvent :=
  { received_at := none, firebase_uid := some "B", event_name := "e" }

/-- **C3 counterexample**: a record missing its timestamp is not
dropped; it aborts the whole aggregation pass with a thrown error, and
in particular the pass does not return the bucket the claim predicts
(the remaining well-formed record alone). -/
theorem malformed_timestamp_fails_pass :
    dailyMapRaw [exGoodRaw, exNoTimeRaw] = Except.error ()
    ∧ dailyMapRaw [exGoodRaw, exNoTimeRaw]
        ≠ Except.ok [(0, {some "A"}, 1)] := by
  exact ⟨by decide, by decide⟩

/-- **C3 (amended)**: the aggregation pass fails (throws) iff some
record lacks its timestamp — a malformed timestamp is a pass-wide
failure, not an individually dropped record; when all timestamps are
present the pass succeeds, and a record missing only its user
identifier is not dropped either: it is counted and contributes a
`null` member to the bucket's unique-user set. -/
theorem malformed_record_policy :
    (∀ events : List RawEvent,
      (dailyMapRaw events = Except.error () ↔ ∃ e ∈ events, e.received_at = none))
    ∧ (∀ events : List RawEvent, (¬ ∃ e ∈ events, e.received_at = none) →
        dailyMapRaw events ≠ Except.error ())
    ∧ dailyMapRaw [exGoodRaw, exNoUidRaw]
        = Except.ok [(0, insert none {some "A"}, 2)] := by
  refine ⟨fun events => rawDailyLoop_error_iff events [], ?_, by decide⟩
  intro events hne h
  exact hne ((rawDailyLoop_error_iff events []).mp h)

theorem malformed_record_policy_witness :
    dailyMapRaw [exNoTimeRaw] = Except.error () := by
  exact (malformed_record_policy.1 [exNoTimeRaw]).mpr
    ⟨exNoTimeRaw, List.mem_singleton.mpr rfl, rfl⟩

/-! ## Zero-denominator safety (C2) -/

/-- Truthiness of `e.props?.savings_cents` (0 and absent are falsy). -/
def hasSavings (e : Event) : Bool :=
  match e.props.savings_cents with
  | some v => v != 0
  | none => false

/-- `totalStarted > 0 ? Math.round((totalCompleted / totalStarted) * 100) : 0`
(onboarding page overall stats). -/
def overallRate (events : List Event) : Nat :=
  let s := (stepUsers events "onboarding_started").card
  let c := (stepUsers events "onboarding_completed").card
  if 0 < s then roundPct c s else 0

/-- The same guarded ratio on the users page activation metrics. -/
def onboardingCompletionRate (events : List Event) : Nat :=
  let s := (stepUsers events "onboarding_started").card
  let c := (stepUsers events "onboarding_completed").card
  if 0 < s then roundPct c s else 0

/-- Users active today (`received_at.startsWith(today)`). -/
def dau (events : List Event) (now : Int) : Nat :=
  (uidsOf (events.filter (fun e => dayIdx e.received_at == dayIdx now))).card

/-- Users active in the trailing seven days (`received_at >= sevenDaysAgo`). -/
def wau (events : List Event) (now : Int) : Nat :=
  (uidsOf (events.filter (fun e => decide (now - 7 * msPerDay ≤ e.received_at)))).card

/-- `wau > 0 ? Math.round((dau / wau) * 100) : 0`. -/
def dauWauRatio (events : List Event) (now : Int) : Nat :=
  if 0 < wau events now then roundPct (dau events now) (wau events now) else 0

/-- The per-day onboarding bucket: users who started and users who
completed on that day. -/
def onboardingBucketUpd (e : Event) (v : Finset String × Finset String) :
    Finset String × Finset String :=
  ( if e.event_name == "onboarding_started" then insert e.firebase_uid v.1 else v.1
  , if e.event_name == "onboarding_completed" then insert e.firebase_uid v.2 else v.2 )

def onboardingDailyMap (events : List Event) :
    List (Int × Finset String × Finset String) :=
  events.foldl (fun m e => mapUpd m (dayIdx e.received_at) (onboardingBucketUpd e) (∅, ∅)) []

structure DailyOnboardingRow where
  date : Int
  started : Nat
  completed : Nat
  rate : Nat
  deriving DecidableEq

/-- The `daily` rows of the onboarding page (before the display-only
`slice(-14)`): per-day started/completed unique users and the guarded
completion rate. -/
def dailyOnboarding (events : List Event) : List DailyOnboardingRow :=
  (onboardingDailyMap events).map (fun p =>
    { date := p.1
      started := p.2.1.card
      completed := p.2.2.card
      rate := if 0 < p.2.1.card then roundPct p.2.2.card p.2.1.card else 0 })

/-- `basketsWithSavings > 0 ? Math.round(totalSavings / basketsWithSavings) : 0`. -/
def avgSavingsPerBasket (events : List Event) : Int :=
  let withSav := events.filter (fun e =>
    e.event_name == "basket_results_displayed" && hasSavings e)
  let total : Int := (withSav.map (fun e => e.props.savings_cents.getD 0)).sum
  if 0 < withSav.length then jsRoundDiv total withSav.length else 0

/-- `trulyNewUsers.size > 0 ? Math.round((newUsersWithBasket / trulyNewUsers.size) * 100) : 0`. -/
def newUserConversionRate (events : List Event) : Nat :=
  let tn := trulyNewUsers events
  let nb := (uidsOf (events.filter (fun e =>
    e.event_name == "basket_results_displayed" && decide (e.firebase_uid ∈ tn)))).card
  if 0 < tn.card then roundPct nb tn.card else 0

/-- `basketUsers > 0 ? Math.round((basketsWithAction / basketUsers) * 100) : 0`. -/
def actionRate (events : List Event) : Nat :=
  let actionUsers := (uidsOf (events.filter (fun e =>
    e.event_name == "product_swapped" || e.event_name == "comparison_started"
    || e.event_name == "shopping_list_saved"))).card
  let basketUsers := (stepUsers events "basket_results_displayed").card
  if 0 < basketUsers then roundPct actionUsers basketUsers else 0

/-- `basketAttempts > 0 ? Math.round((basketSuccesses / basketAttempts) * 100) : 0`. -/
def basketSuccessRate (events : List Event) : Nat :=
  let attempts := (events.filter (fun e => e.event_name == "comparison_started")).length
  let successes := (events.filter (fun e => e.event_name == "basket_results_displayed")).length
  if 0 < attempts then roundPct successes attempts else 0

/-- `usersWeek1.size > 0 ? Math.round((retained / usersWeek1.size) * 100) : 0`. -/
def w1Retention (events : List Event) (now : Int) : Nat :=
  let u1 := uidsOf (events.filter (fun e =>
    decide (now - 14 * msPerDay ≤ e.received_at) && decide (e.received_at < now - 7 * msPerDay)))
  let u2 := uidsOf (events.filter (fun e => decide (now - 7 * msPerDay ≤ e.received_at)))
  let retained := (u1.filter (fun u => u ∈ u2)).card
  if 0 < u1.card then roundPct retained u1.card else 0

/-- `mau > 0 ? Math.round((firstBasketUsers / mau) * 100) : 0`. -/
def firstBasketRate (events : List Event) : Nat :=
  let mau := (uidsOf events).card
  if 0 < mau then roundPct (stepUsers events "basket_results_displayed").card mau else 0

/-- Truthiness of `e.props?.savings_cents >= 300` (false when absent). -/
def savingsAtLeast300 (e : Event) : Bool :=
  match e.props.savings_cents with
  | some v => decide (300 ≤ v)
  | none => false

/-- `firstBasketUsers > 0 ? Math.round((ahaUsers / firstBasketUsers) * 100) : 0`. -/
def ahaEventRate (events : List Event) : Nat :=
  let fb := (stepUsers events "basket_results_displayed").card
  let aha := (uidsOf (events.filter (fun e =>
    e.event_name == "basket_results_displayed" && savingsAtLeast300 e))).card
  if 0 < fb then roundPct aha fb else 0

/-- **C2**: every listed percentage or ratio is computed behind an
explicit denominator guard and resolves to 0 when its denominator is
zero — onboarding completion rates (both pages), the DAU/WAU
stickiness ratio, the per-day completion rates, the per-segment
averages, the average savings per basket, and the conversion rates
(new-user conversion, action rate, aha rate, basket success, W1
retention, first-basket rate) — and on the empty record list every one
of them is 0. All of
these are total functions into `Nat`/`Int`, so no value is ever
`NaN`/undefined/infinite. -/
theorem zero_denominator_safety :
    (∀ events : List Event,
      (stepUsers events "onboarding_started").card = 0 →
      overallRate events = 0 ∧ onboardingCompletionRate events = 0)
    ∧ (∀ (events : List Event) (now : Int), wau events now = 0 → dauWauRatio events now = 0)
    ∧ (∀ (events : List Event) (r : DailyOnboardingRow),
        r ∈ dailyOnboarding events → r.started = 0 → r.rate = 0)
    ∧ (∀ (events : List Event) (k : Nat), (segmentAt events k).users = 0 →
        (segmentAt events k).avgEvents = 0 ∧ (segmentAt events k).avgSavings = 0)
    ∧ (∀ events : List Event,
        (events.filter (fun e =>
          e.event_name == "basket_results_displayed" && hasSavings e)).length = 0 →
        avgSavingsPerBasket events = 0)
    ∧ (∀ events : List Event, (trulyNewUsers events).card = 0 →
        newUserConversionRate events = 0)
    ∧ (∀ events : List Event, (stepUsers events "basket_results_displayed").card = 0 →
        actionRate events = 0 ∧ ahaEventRate events = 0)
    ∧ (∀ events : List Event,
        (events.filter (fun e => e.event_name == "comparison_started")).length = 0 →
        basketSuccessRate events = 0)
    ∧ (∀ (events : List Event) (now : Int),
        (uidsOf (events.filter (fun e =>
          decide (now - 14 * msPerDay ≤ e.received_at)
          && decide (e.received_at < now - 7 * msPerDay)))).card = 0 →
        w1Retention events now = 0)
    ∧ (∀ events : List Event, (uidsOf events).card = 0 → firstBasketRate events = 0)
    ∧ (overallRate [] = 0 ∧ onboardingCompletionRate [] = 0 ∧ dauWauRatio [] 0 = 0
        ∧ dailyOnboarding [] = [] ∧ avgSavingsPerBasket [] = 0
        ∧ newUserConversionRate [] = 0 ∧ actionRate [] = 0 ∧ basketSuccessRate [] = 0
        ∧ w1Retention [] 0 = 0 ∧ firstBasketRate [] = 0 ∧ ahaEventRate [] = 0) := by
  refine ⟨?_, ?_, ?_, ?_, ?_, ?_, ?_, ?_, ?_, ?_, by decide, by decide, by decide, rfl,
    by decide, by decide, by decide, by decide, by decide, by decide, by decide⟩
  · intro events h
    unfold overallRate onboardingCompletionRate
    rw [h]
    exact ⟨rfl, rfl⟩
  · intro events now h
    unfold dauWauRatio
    rw [h]
    rfl
  · intro events r hr h
    unfold dailyOnboarding at hr
    rw [List.mem_map] at hr
    obtain ⟨p, hp, rfl⟩ := hr
    simp only at h ⊢
    rw [h]
    rfl
  · intro events k h
    simp only [segmentAt] at h ⊢
    rw [if_neg (by omega), if_neg (by omega)]
    exact ⟨rfl, rfl⟩
  · intro events h
    simp only [avgSavingsPerBasket]
    rw [h]
    rfl
  · intro events h
    simp only [newUserConversionRate]
    rw [h]
    rfl
  · intro events h
    simp only [actionRate, ahaEventRate]
    rw [h]
    exact ⟨rfl, rfl⟩
  · intro events h
    simp only [basketSuccessRate]
    rw [h]
    rfl
  · intro events now h
    simp only [w1Retention]
    rw [h]
    rfl
  · intro events h
    simp only [firstBasketRate]
    rw [h]
    rfl

def exPlain : Event := { received_at := 0, firebase_uid := "A", event_name := "x" }

def exBasketNoSav : Event :=
  { received_at := 0, firebase_uid := "A", event_name := "basket_results_displayed" }

theorem zero_denominator_safety_witness :
    (overallRate [exPlain] = 0 ∧ onboardingCompletionRate [exPlain] = 0)
    ∧ dauWauRatio [exPlain] (100 * msPerDay) = 0
    ∧ (⟨0, 0, 0, 0⟩ : DailyOnboardingRow).rate = 0
    ∧ ((segmentAt [exPlain] 0).avgEvents = 0 ∧ (segmentAt [exPlain] 0).avgSavings = 0)
    ∧ avgSavingsPerBasket [exBasketNoSav] = 0
    ∧ newUserConversionRate [exPlain] = 0
    ∧ (actionRate [exPlain] = 0 ∧ ahaEventRate [exPlain] = 0)
    ∧ basketSuccessRate [exPlain] = 0
    ∧ w1Retention [exPlain] (100 * msPerDay) = 0
    ∧ firstBasketRate [] = 0 := by
  refine ⟨zero_denominator_safety.1 [exPlain] (by decide),
    zero_denominator_safety.2.1 [exPlain] (100 * msPerDay) (by decide),
    zero_denominator_safety.2.2.1 [exPlain] ⟨0, 0, 0, 0⟩ (by decide) rfl,
    zero_denominator_safety.2.2.2.1 [exPlain] 0 (by decide),
    zero_denominator_safety.2.2.2.2.1 [exBasketNoSav] (by decide),
    zero_denominator_safety.2.2.2.2.2.1 [exPlain] (by decide),
    zero_denominator_safety.2.2.2.2.2.2.1 [exPlain] (by decide),
    zero_denominator_safety.2.2.2.2.2.2.2.1 [exPlain] (by decide),
    zero_denominator_safety.2.2.2.2.2.2.2.2.1 [exPlain] (100 * msPerDay) (by decide),
    zero_denominator_safety.2.2.2.2.2.2.2.2.2.1 [] (by decide)⟩

/-! ## Feature adoption (src: overview page, `featureArray`) -/

/-- The static event-to-feature catalog of the overview page. -/
def EVENT_TO_FEATURE : List (String × String) :=
  [ ("browse_page_viewed", "Browse")
  , ("browse_lazy_load", "Browse")
  , ("chat_page_viewed", "Chat")
  , ("message_sent", "Chat")
  , ("basket_viewed", "Basket")
  , ("basket_results_displayed", "Basket")
  , ("shopping_list_viewed", "Shopping List")
  , ("item_added", "Shopping List")
  , ("product_added_to_list", "Shopping List")
  , ("multiple_products_added", "Shopping List")
  , ("settings_page_viewed", "Settings")
  , ("language_selected", "Settings")
  , ("onboarding_started", "Onboarding")
  , ("onboarding_completed", "Onboarding")
  , ("comparison_started", "Comparison")
  , ("product_swapped", "Comparison")
  , ("quick_action_tapped", "Quick Actions")
  , ("demo_list_selected", "Demo")
  , ("app_launch", "App Launch")
  , ("splash_load_completed", "App Launch") ]

/-- `EVENT_TO_FEATURE[e.event_name] || 'Other'`. -/
def featureOf (name : String) : String :=
  (alookup name EVENT_TO_FEATURE).getD "Other"

structure FeatureRow where
  feature : String
  users : Nat
  events : Nat
  adoption_rate : Option Nat
  deriving DecidableEq

/-- The unique users of one feature bucket. -/
def featureUsers (events : List Event) (f : String) : Finset String :=
  uidsOf (events.filter (fun e => featureOf e.event_name == f))

/-- The distinct features appearing in the events (the JS `Map` holds
each feature key once; the later sort by users permutes rows only). -/
def featureKeys (events : List Event) : List String :=
  (events.map (fun e => featureOf e.event_name)).dedup

/-- The feature-adoption rows:
`adoption_rate = Math.round((users.size / allUsers.size) * 100)` has no
zero guard in the source, so a zero denominator — impossible while a
row exists — would be `NaN`, modelled `none`. -/
def featureArray (events : List Event) : List FeatureRow :=
  (featureKeys events).map (fun f =>
    { feature := f
      users := (featureUsers events f).card
      events := (events.filter (fun e => featureOf e.event_name == f)).length
      adoption_rate :=
        if (uidsOf events).card = 0 then none
        else some (roundPct (featureUsers events f).card (uidsOf events).card) })

theorem uidsOf_filter_subset (events : List Event) (p : Event → Bool) :
    uidsOf (events.filter p) ⊆ uidsOf events := by
  intro u hu
  simp only [uidsOf, List.mem_toFinset, List.mem_map] at hu ⊢
  obtain ⟨e, he, rfl⟩ := hu
  exact ⟨e, List.mem_of_mem_filter he, rfl⟩

theorem roundPct_le_100 (a b : Nat) (hab : a ≤ b) (hb : 1 ≤ b) : roundPct a b ≤ 100 := by
  unfold roundPct
  have h1 : (200 * a + b) / (2 * b) ≤ (201 * b) / (2 * b) :=
    Nat.div_le_div_right (by omega)
  have h2 : (201 * b) / (2 * b) = 100 :=
    Nat.div_eq_of_lt_le (by omega) (by omega)
  omega

/-- **C10**: for every nonempty event list, every feature-adoption row
has a well-defined adoption rate between 0 and 100: the feature's
unique-user set is a subset of the set of all users, so the denominator
is positive whenever a row exists and the rounded ratio never exceeds
100 (and, being a natural number, never drops below 0 and is never
`NaN` or infinite). -/
theorem featureAdoption_bounds :
    ∀ events : List Event, events ≠ [] →
      ∀ r ∈ featureArray events,
        featureUsers events r.feature ⊆ uidsOf events
        ∧ ∃ v, r.adoption_rate = some v ∧ v ≤ 100 := by
  intro events hne r hr
  have hcard : 0 < (uidsOf events).card := by
    rw [Finset.card_pos]
    match events, hne with
    | e :: rest, _ =>
      exact ⟨e.firebase_uid, by simp [uidsOf]⟩
  obtain ⟨f, hf, rfl⟩ := List.mem_map.mp hr
  refine ⟨uidsOf_filter_subset _ _, ?_⟩
  simp only
  rw [if_neg (by omega)]
  refine ⟨_, rfl, roundPct_le_100 _ _ ?_ (by omega)⟩
  exact Finset.card_le_card (uidsOf_filter_subset _ _)

theorem featureAdoption_bounds_witness :
    featureUsers [exPlain] "Other" ⊆ uidsOf [exPlain]
    ∧ (featureArray [exPlain] = [⟨"Other", 1, 1, some 100⟩]) := by
  have h := featureAdoption_bounds [exPlain] (by decide)
    ⟨"Other", 1, 1, some 100⟩ (by decide)
  exact ⟨by simpa using h.1, by decide⟩
